import Mathlib

/-!
Shallow embedding of the circuit-solver repository (src/types.rs) in Lean 4,
together with theorems settling the frozen claims about its specification.

The Rust source models an electrical circuit as a vector of nodes, a map of
wires, and a map of named two-terminal components.  Mutable methods on
`Circuit` are embedded as pure functions returning the updated circuit;
fallible unwraps are embedded with `Option` (`none` models a panic), and the
`&str` errors of `connect` are kept as the literal strings the source returns.
Rust `f64` fields are embedded as `Float`; no claim inspects their values.
-/

namespace CircuitModel

/-- ConnectionItem (types.rs lines 121-125): a tagged back-reference recorded
on a node, naming either a wire by id or a component by name. -/
inductive ConnectionItem where
  | wire (id : Nat)
  | component (name : String)
deriving DecidableEq

/-- Node (types.rs lines 102-106): a circuit vertex with an id, an optional
resolved voltage and the ordered list of connection back-references. -/
structure Node where
  id : Nat
  voltage : Option Float
  connected : List ConnectionItem

/-- Node::new (types.rs lines 108-114). -/
def Node.new (id : Nat) : Node :=
  { id := id, voltage := none, connected := [] }

/-- Node::add_connection (types.rs lines 116-118): push one item. -/
def Node.add_connection (n : Node) (connection : ConnectionItem) : Node :=
  { n with connected := n.connected ++ [connection] }

/-- Wire (types.rs lines 127-131). -/
structure Wire where
  node1 : Nat
  node2 : Nat
  id : Nat
deriving DecidableEq

/-- Wire::new (types.rs lines 132-140). -/
def Wire.new (id node1 node2 : Nat) : Wire :=
  { node1 := node1, node2 := node2, id := id }

/-- BaseComponent (types.rs lines 148-156): the shared record of every
component variant. -/
structure BaseComponent where
  node1 : Option Nat
  node2 : Option Nat
  name : String
  current : Option Float
  voltage : Option Float

/-- Polarity (types.rs lines 305-308). -/
inductive Polarity where
  | Normal
  | Inverted
deriving DecidableEq

/-- Resistor (types.rs lines 158-161). -/
structure Resistor where
  component : BaseComponent
  resistance : Float

/-- Resistor::new (types.rs lines 166-179). -/
def Resistor.new (name : String) (resistance : Float) : Resistor :=
  { component := { node1 := none, node2 := none, name := name,
                   current := none, voltage := none },
    resistance := resistance }

/-- Capacitor (types.rs lines 181-184). -/
structure Capacitor where
  component : BaseComponent
  capacitance : Float

/-- Capacitor::new (types.rs lines 189-202). -/
def Capacitor.new (name : String) (capacitance : Float) : Capacitor :=
  { component := { node1 := none, node2 := none, name := name,
                   current := none, voltage := none },
    capacitance := capacitance }

/-- Inductor (types.rs lines 204-207). -/
structure Inductor where
  component : BaseComponent
  inductance : Float

/-- Inductor::new (types.rs lines 212-225). -/
def Inductor.new (name : String) (inductance : Float) : Inductor :=
  { component := { node1 := none, node2 := none, name := name,
                   current := none, voltage := none },
    inductance := inductance }

/-- VoltageSource (types.rs lines 227-231).  The source comment on the
polarity field reads: if normal, node1 should be plus and node2 should be
minus. -/
structure VoltageSource where
  component : BaseComponent
  voltage : Float
  polarity : Polarity

/-- VoltageSource::new (types.rs lines 237-249). -/
def VoltageSource.new (name : String) (voltage : Float) (polarity : Polarity) :
    VoltageSource :=
  { component := { node1 := none, node2 := none, name := name,
                   current := none, voltage := none },
    voltage := voltage, polarity := polarity }

/-- VoltageSource::positive_node (types.rs lines 251-256). -/
def VoltageSource.positive_node (v : VoltageSource) : Option Nat :=
  match v.polarity with
  | Polarity.Normal => v.component.node1
  | Polarity.Inverted => v.component.node2

/-- VoltageSource::negative_node (types.rs lines 258-263). -/
def VoltageSource.negative_node (v : VoltageSource) : Option Nat :=
  match v.polarity with
  | Polarity.Normal => v.component.node2
  | Polarity.Inverted => v.component.node1

/-- CurrentSource (types.rs lines 266-270).  The source comment on the
polarity field reads: if normal, current will flow from node2 to node1. -/
structure CurrentSource where
  component : BaseComponent
  current : Float
  polarity : Polarity

/-- CurrentSource::new (types.rs lines 276-288). -/
def CurrentSource.new (name : String) (current : Float) (polarity : Polarity) :
    CurrentSource :=
  { component := { node1 := none, node2 := none, name := name,
                   current := none, voltage := none },
    current := current, polarity := polarity }

/-- CurrentSource::input_node (types.rs lines 290-295): Normal polarity
resolves to node2. -/
def CurrentSource.input_node (s : CurrentSource) : Option Nat :=
  match s.polarity with
  | Polarity.Normal => s.component.node2
  | Polarity.Inverted => s.component.node1

/-- CurrentSource::output_node (types.rs lines 297-302): Normal polarity
resolves to node1. -/
def CurrentSource.output_node (s : CurrentSource) : Option Nat :=
  match s.polarity with
  | Polarity.Normal => s.component.node1
  | Polarity.Inverted => s.component.node2

/-- The closed set of component variants behind the Component trait
(types.rs lines 143-146): each variant carries its Rust struct. -/
inductive Component where
  | resistor (r : Resistor)
  | capacitor (c : Capacitor)
  | inductor (l : Inductor)
  | voltageSource (v : VoltageSource)
  | currentSource (s : CurrentSource)

/-- The trait method component(): read access to the shared base record. -/
def Component.component : Component → BaseComponent
  | Component.resistor r => r.component
  | Component.capacitor c => c.component
  | Component.inductor l => l.component
  | Component.voltageSource v => v.component
  | Component.currentSource s => s.component

/-- Assignment through the trait method component_mut(): replace the shared
base record, keeping the variant and its extra parameters. -/
def Component.setBase : Component → BaseComponent → Component
  | Component.resistor r, b => Component.resistor { r with component := b }
  | Component.capacitor c, b => Component.capacitor { c with component := b }
  | Component.inductor l, b => Component.inductor { l with component := b }
  | Component.voltageSource v, b => Component.voltageSource { v with component := b }
  | Component.currentSource s, b => Component.currentSource { s with component := b }

/-- Circuit (types.rs lines 6-10).  The Rust HashMaps are embedded as
association lists; insertion replaces an existing binding in place. -/
structure Circuit where
  nodes : List Node
  wires : List (Nat × Wire)
  components : List (String × Component)

/-- HashMap::insert on the components map: replace the binding of an existing
key, else append the new binding. -/
def mapInsert (key : String) (val : Component) :
    List (String × Component) → List (String × Component)
  | [] => [(key, val)]
  | (k, v) :: rest =>
    if k = key then (key, val) :: rest else (k, v) :: mapInsert key val rest

/-- HashMap::get on the components map. -/
def mapGet (key : String) : List (String × Component) → Option Component
  | [] => none
  | (k, v) :: rest => if k = key then some v else mapGet key rest

/-- In-place update of one node of the node vector, as Rust does through
get_node_mut followed by a mutation; `none` models a failed lookup (the
unwrap would panic). -/
def modifyNode (f : Node → Node) : List Node → Nat → Option (List Node)
  | [], _ => none
  | n :: rest, 0 => some (f n :: rest)
  | n :: rest, Nat.succ i => (modifyNode f rest i).map (fun l => n :: l)

/-- Circuit::new (types.rs lines 12-18). -/
def Circuit.new : Circuit :=
  { nodes := [], wires := [], components := [] }

/-- Circuit::new_node (types.rs lines 88-97): push a fresh node whose id is
the current node count, and return that id. -/
def Circuit.new_node (c : Circuit) : Circuit × Nat :=
  let node_id := c.nodes.length
  ({ c with nodes := c.nodes ++ [Node.new node_id] }, node_id)

/-- Circuit::get_component (types.rs lines 41-48). -/
def Circuit.get_component (c : Circuit) (name : String) : Option Component :=
  mapGet name c.components

/-- Circuit::get_component_mut (types.rs lines 50-57): the lookup performed by
the mutable accessor (mutation itself is modelled where it occurs). -/
def Circuit.get_component_mut (c : Circuit) (name : String) : Option Component :=
  mapGet name c.components

/-- Circuit::get_node (types.rs lines 59-61). -/
def Circuit.get_node (c : Circuit) (id : Nat) : Option Node :=
  c.nodes[id]?

/-- Circuit::get_node_mut (types.rs lines 63-65): the lookup performed by the
mutable accessor. -/
def Circuit.get_node_mut (c : Circuit) (id : Nat) : Option Node :=
  c.nodes[id]?

/-- Circuit::add_component (types.rs lines 20-39): create two fresh nodes,
assign them as the component terminals, store the component under its name,
then register a Component-kind connection on both new nodes.  The two
get_node_mut unwraps are modelled by `Option`: `none` models a panic. -/
def Circuit.add_component (c : Circuit) (component : Component) : Option Circuit :=
  let p1 := c.new_node
  let c1 := p1.1
  let node1 := p1.2
  let p2 := c1.new_node
  let c2 := p2.1
  let node2 := p2.2
  let component := component.setBase
    { component.component with node1 := some node1, node2 := some node2 }
  let name := component.component.name
  let c3 : Circuit := { c2 with components := mapInsert name component c2.components }
  let connection := ConnectionItem.component name
  match modifyNode (fun n => n.add_connection connection) c3.nodes node1 with
  | none => none
  | some nodes1 =>
    match modifyNode (fun n => n.add_connection connection) nodes1 node2 with
    | none => none
    | some nodes2 => some { c3 with nodes := nodes2 }

/-- The error string of the InvalidNode error kind (types.rs line 70). -/
def invalidNodeMsg : String := "Node does not exist"

/-- The error string of the SelfConnection error kind (types.rs line 73). -/
def selfConnectionMsg : String := "Cannot connect a node to itself"

/-- Outcome of Circuit::connect: a returned wire, an error string, or a panic
of one of the two unwraps. -/
inductive ConnectOutcome where
  | ok (wire : Wire)
  | error (msg : String)
  | panic
deriving DecidableEq

/-- Circuit::connect (types.rs lines 67-86): bounds-check both node ids,
reject self-connection, then build a wire whose id is the current wire count
and append a Wire-kind connection to both endpoint nodes.  The wire is
returned and never inserted into `wires`.  The first component of the result
is the circuit as the method leaves it. -/
def Circuit.connect (c : Circuit) (node1 node2 : Nat) : Circuit × ConnectOutcome :=
  if c.nodes.length ≤ node1 ∨ c.nodes.length ≤ node2 then
    (c, ConnectOutcome.error invalidNodeMsg)
  else if node1 = node2 then
    (c, ConnectOutcome.error selfConnectionMsg)
  else
    let wire_id := c.wires.length
    let wire := Wire.new wire_id node1 node2
    let connection := ConnectionItem.wire wire_id
    match modifyNode (fun n => n.add_connection connection) c.nodes node1 with
    | none => (c, ConnectOutcome.panic)
    | some nodes1 =>
      match modifyNode (fun n => n.add_connection connection) nodes1 node2 with
      | none => ({ c with nodes := nodes1 }, ConnectOutcome.panic)
      | some nodes2 => ({ c with nodes := nodes2 }, ConnectOutcome.ok wire)

/-- One call of the public mutating API. -/
inductive Op where
  | addComponent (component : Component)
  | connect (a b : Nat)

/-- Run one public call; `none` models a panic. A failed connect returns the
circuit unchanged to the caller. -/
def Circuit.runOp (c : Circuit) : Op → Option Circuit
  | Op.addComponent component => c.add_component component
  | Op.connect a b =>
    match c.connect a b with
    | (c1, ConnectOutcome.ok _) => some c1
    | (c1, ConnectOutcome.error _) => some c1
    | (_, ConnectOutcome.panic) => none

/-- Run a sequence of public calls. -/
def runOps : Circuit → List Op → Option Circuit
  | c, [] => some c
  | c, op :: rest =>
    match c.runOp op with
    | some c1 => runOps c1 rest
    | none => none

/-- A circuit reachable from Circuit::new() through the public API. -/
def Reachable (c : Circuit) : Prop :=
  ∃ ops : List Op, runOps Circuit.new ops = some c

/-- The wires returned (by value) by the successful connect calls of a run. -/
def traceWires : Circuit → List Op → List Wire
  | _, [] => []
  | c, op :: rest =>
    (match op with
     | Op.addComponent _ => []
     | Op.connect a b =>
       match (c.connect a b).2 with
       | ConnectOutcome.ok w => [w]
       | _ => []) ++
    (match c.runOp op with
     | some c1 => traceWires c1 rest
     | none => [])

/-- The component names consumed by the addComponent calls of a run. -/
def opNames : List Op → List String
  | [] => []
  | Op.addComponent component :: rest => component.component.name :: opNames rest
  | Op.connect _ _ :: rest => opNames rest

/-- Both terminal node ids of a component, in order, skipping absent ones. -/
def terminalsOf (component : Component) : List Nat :=
  component.component.node1.toList ++ component.component.node2.toList

/-- Number of Component-kind entries naming `name` in a node's connected
list. -/
def compCount (n : Node) (name : String) : Nat :=
  n.connected.countP (fun ci =>
    match ci with
    | ConnectionItem.component k => decide (k = name)
    | ConnectionItem.wire _ => false)

/-- Number of Wire-kind entries in a node's connected list. -/
def wireCount (n : Node) : Nat :=
  n.connected.countP (fun ci =>
    match ci with
    | ConnectionItem.wire _ => true
    | ConnectionItem.component _ => false)

/-- Wire-kind entry count of node `i` of a circuit (0 when out of range). -/
def nodeWireCount (c : Circuit) (i : Nat) : Nat :=
  match c.nodes[i]? with
  | some n => wireCount n
  | none => 0

/-- How many successful connect calls of a run have node `i` as an
endpoint, counting an endpoint once per side. -/
def touchCount : Circuit → List Op → Nat → Nat
  | _, [], _ => 0
  | c, op :: rest, i =>
    (match op with
     | Op.addComponent _ => 0
     | Op.connect a b =>
       match (c.connect a b).2 with
       | ConnectOutcome.ok _ =>
         (if a = i then 1 else 0) + (if b = i then 1 else 0)
       | _ => 0) +
    (match c.runOp op with
     | some c1 => touchCount c1 rest i
     | none => 0)

/-! ### Derived definitions: closed forms and invariants -/

/-- The component actually stored by add_component: the argument with the two
fresh terminal ids written into its base record. -/
def newComp (c : Circuit) (component : Component) : Component :=
  component.setBase
    { component.component with
      node1 := some c.nodes.length, node2 := some (c.nodes.length + 1) }

/-- The circuit add_component produces. -/
def addResult (c : Circuit) (component : Component) : Circuit :=
  { nodes := c.nodes ++
      [{ id := c.nodes.length, voltage := none,
         connected := [ConnectionItem.component component.component.name] },
       { id := c.nodes.length + 1, voltage := none,
         connected := [ConnectionItem.component component.component.name] }],
    wires := c.wires,
    components := mapInsert component.component.name (newComp c component)
      c.components }

/-- Node list produced by a successful connect: one Wire-kind entry with id
`wid` appended to each endpoint. -/
def connectResultNodes (nodes : List Node) (a b wid : Nat)
    (ha : a < nodes.length) (hb : b < nodes.length) : List Node :=
  (nodes.set a
      (nodes[a].add_connection (ConnectionItem.wire wid))).set b
    (nodes[b].add_connection (ConnectionItem.wire wid))

/-- Well-formedness of one stored component entry: the stored key is the
component's name, both terminals are assigned, they differ, and they are
valid node indices. -/
def compOk (len : Nat) (e : String × Component) : Prop :=
  e.2.component.name = e.1 ∧
  e.2.component.node1.isSome = true ∧
  e.2.component.node2.isSome = true ∧
  e.2.component.node1 ≠ e.2.component.node2 ∧
  ∀ t ∈ terminalsOf e.2, t < len

/-- Structural invariant holding for every circuit reachable from
Circuit::new() through the public API. -/
structure Inv (c : Circuit) : Prop where
  wires_nil : c.wires = []
  keys_nodup : (c.components.map Prod.fst).Nodup
  comps_ok : ∀ e ∈ c.components, compOk c.nodes.length e
  comps_disj : ∀ e ∈ c.components, ∀ f ∈ c.components, e.1 ≠ f.1 →
    ∀ t ∈ terminalsOf e.2, t ∉ terminalsOf f.2
  wire_entry_zero : ∀ n ∈ c.nodes, ∀ k,
    ConnectionItem.wire k ∈ n.connected → k = 0

/-- Exactness of the Component-kind back-references: node `i` carries exactly
one entry for the stored component named `name` when that component's
terminals include `i`, and none otherwise. -/
def CInv (c : Circuit) : Prop :=
  ∀ i, ∀ h : i < c.nodes.length, ∀ name : String,
    compCount c.nodes[i] name =
      match mapGet name c.components with
      | some comp =>
        if comp.component.node1 = some i ∨ comp.component.node2 = some i
        then 1 else 0
      | none => 0

/-- A VoltageSource with its terminal node ids written into the base record,
as add_component assigns them. -/
def VoltageSource.assignTerminals (v : VoltageSource) (t1 t2 : Nat) :
    VoltageSource :=
  { v with
    component := { v.component with node1 := some t1, node2 := some t2 } }

/-! ### Concrete components and circuits used by witnesses and
counterexamples -/

def rOne : Component := Component.resistor (Resistor.new "R1" 100.0)

def rTwo : Component := Component.resistor (Resistor.new "R1" 200.0)

def storedR1First : Component :=
  Component.resistor
    { component := { node1 := some 0, node2 := some 1, name := "R1",
                     current := none, voltage := none },
      resistance := 100.0 }

def storedR1Second : Component :=
  Component.resistor
    { component := { node1 := some 2, node2 := some 3, name := "R1",
                     current := none, voltage := none },
      resistance := 200.0 }

def circuitR1 : Circuit :=
  { nodes := [{ id := 0, voltage := none,
                connected := [ConnectionItem.component "R1"] },
              { id := 1, voltage := none,
                connected := [ConnectionItem.component "R1"] }],
    wires := [],
    components := [("R1", storedR1First)] }

def circuitR1Wired : Circuit :=
  { nodes := [{ id := 0, voltage := none,
                connected := [ConnectionItem.component "R1",
                              ConnectionItem.wire 0] },
              { id := 1, voltage := none,
                connected := [ConnectionItem.component "R1",
                              ConnectionItem.wire 0] }],
    wires := [],
    components := [("R1", storedR1First)] }

def circuitR1Replaced : Circuit :=
  { nodes := [{ id := 0, voltage := none,
                connected := [ConnectionItem.component "R1"] },
              { id := 1, voltage := none,
                connected := [ConnectionItem.component "R1"] },
              { id := 2, voltage := none,
                connected := [ConnectionItem.component "R1"] },
              { id := 3, voltage := none,
                connected := [ConnectionItem.component "R1"] }],
    wires := [],
    components := [("R1", storedR1Second)] }

def dupOps : List Op :=
  [Op.addComponent rOne, Op.addComponent rTwo, Op.connect 2 3]

def circuitDup : Circuit :=
  { nodes := [{ id := 0, voltage := none,
                connected := [ConnectionItem.component "R1"] },
              { id := 1, voltage := none,
                connected := [ConnectionItem.component "R1"] },
              { id := 2, voltage := none,
                connected := [ConnectionItem.component "R1",
                              ConnectionItem.wire 0] },
              { id := 3, voltage := none,
                connected := [ConnectionItem.component "R1",
                              ConnectionItem.wire 0] }],
    wires := [],
    components := [("R1", storedR1Second)] }

def iSourceNormal : CurrentSource :=
  { component := { node1 := some 0, node2 := some 1, name := "I1",
                   current := none, voltage := none },
    current := 2.0, polarity := Polarity.Normal }

def circuitI1 : Circuit :=
  { nodes := [{ id := 0, voltage := none,
                connected := [ConnectionItem.component "I1"] },
              { id := 1, voltage := none,
                connected := [ConnectionItem.component "I1"] }],
    wires := [],
    components := [("I1", Component.currentSource iSourceNormal)] }

def twoNodeCircuit : Circuit :=
  { nodes := [Node.new 0, Node.new 1], wires := [], components := [] }

def twoNodeWired : Circuit :=
  { nodes := [{ id := 0, voltage := none,
                connected := [ConnectionItem.wire 0] },
              { id := 1, voltage := none,
                connected := [ConnectionItem.wire 0] }],
    wires := [], components := [] }

/-! ### Helper lemmas about the embedded operations -/

theorem Component.component_setBase (comp : Component) (b : BaseComponent) :
    (comp.setBase b).component = b := by
  cases comp <;> rfl

theorem mapGet_mapInsert_self (k : String) (v : Component)
    (l : List (String × Component)) : mapGet k (mapInsert k v l) = some v := by
  induction l with
  | nil => simp [mapInsert, mapGet]
  | cons e rest ih =>
    by_cases h : e.1 = k
    · simp [mapInsert, mapGet, h]
    · simpa [mapInsert, mapGet, h] using ih

theorem mapGet_mapInsert_ne (k k' : String) (v : Component)
    (l : List (String × Component)) (h : k' ≠ k) :
    mapGet k' (mapInsert k v l) = mapGet k' l := by
  induction l with
  | nil => simp [mapInsert, mapGet, h, Ne.symm h]
  | cons e rest ih =>
    by_cases he : e.1 = k
    · simp [mapInsert, mapGet, he, h, Ne.symm h]
    · by_cases he' : e.1 = k'
      · simp [mapInsert, mapGet, he, he', h, Ne.symm h]
      · simpa [mapInsert, mapGet, he, he'] using ih

theorem length_mapInsert_of_mem (k : String) (v v₀ : Component)
    (l : List (String × Component)) (h : mapGet k l = some v₀) :
    (mapInsert k v l).length = l.length := by
  induction l with
  | nil => simp [mapGet] at h
  | cons e rest ih =>
    by_cases he : e.1 = k
    · simp [mapInsert, he]
    · simp only [mapGet, he, if_false] at h
      simp [mapInsert, he, ih h]

theorem mem_mapInsert (k : String) (v : Component) (e : String × Component)
    (l : List (String × Component)) (hnd : (l.map Prod.fst).Nodup)
    (h : e ∈ mapInsert k v l) : e = (k, v) ∨ (e ∈ l ∧ e.1 ≠ k) := by
  induction l with
  | nil =>
    simp [mapInsert] at h
    exact Or.inl h
  | cons f rest ih =>
    simp only [List.map_cons, List.nodup_cons] at hnd
    by_cases hf : f.1 = k
    · simp only [mapInsert, hf, if_true] at h
      rcases List.mem_cons.mp h with h | h
      · exact Or.inl h
      · refine Or.inr ⟨List.mem_cons_of_mem _ h, ?_⟩
        intro hk
        exact hnd.1 (hf ▸ hk ▸ List.mem_map_of_mem Prod.fst h)
    · simp only [mapInsert, hf, if_false] at h
      rcases List.mem_cons.mp h with h | h
      · subst h
        exact Or.inr ⟨List.mem_cons_self _ _, hf⟩
      · rcases ih hnd.2 h with h | ⟨h1, h2⟩
        · exact Or.inl h
        · exact Or.inr ⟨List.mem_cons_of_mem _ h1, h2⟩

theorem keys_mapInsert_subset (k : String) (v : Component) (x : String)
    (l : List (String × Component))
    (h : x ∈ (mapInsert k v l).map Prod.fst) : x = k ∨ x ∈ l.map Prod.fst := by
  induction l with
  | nil =>
    simp [mapInsert] at h
    exact Or.inl h
  | cons f rest ih =>
    by_cases hf : f.1 = k
    · simp only [mapInsert, hf, if_true, List.map_cons, List.mem_cons] at h
      rcases h with h | h
      · exact Or.inl h
      · exact Or.inr (List.mem_cons_of_mem _ h)
    · simp only [mapInsert, hf, if_false, List.map_cons, List.mem_cons] at h
      rcases h with h | h
      · exact Or.inr (by simp [h])
      · rcases ih h with h | h
        · exact Or.inl h
        · exact Or.inr (List.mem_cons_of_mem _ h)

theorem keys_nodup_mapInsert (k : String) (v : Component)
    (l : List (String × Component)) (hnd : (l.map Prod.fst).Nodup) :
    ((mapInsert k v l).map Prod.fst).Nodup := by
  induction l with
  | nil => simp [mapInsert]
  | cons f rest ih =>
    simp only [List.map_cons, List.nodup_cons] at hnd
    by_cases hf : f.1 = k
    · simp only [mapInsert, hf, if_true, List.map_cons, List.nodup_cons]
      exact ⟨hf ▸ hnd.1, hnd.2⟩
    · simp only [mapInsert, hf, if_false, List.map_cons, List.nodup_cons]
      refine ⟨?_, ih hnd.2⟩
      intro hmem
      rcases keys_mapInsert_subset k v f.1 rest hmem with h | h
      · exact hf h
      · exact hnd.1 h

theorem mapGet_mem (k : String) (v : Component) (l : List (String × Component))
    (h : mapGet k l = some v) : (k, v) ∈ l := by
  induction l with
  | nil => simp [mapGet] at h
  | cons e rest ih =>
    by_cases he : e.1 = k
    · simp only [mapGet, he, if_true, Option.some.injEq] at h
      subst h
      exact he ▸ List.mem_cons_self _ _
    · simp only [mapGet, he, if_false] at h
      exact List.mem_cons_of_mem _ (ih h)

theorem mapGet_eq_none_iff (k : String) (l : List (String × Component)) :
    mapGet k l = none ↔ k ∉ l.map Prod.fst := by
  induction l with
  | nil => simp [mapGet]
  | cons e rest ih =>
    by_cases he : e.1 = k
    · simp [mapGet, he]
    · simp [mapGet, he, ih, Ne.symm he]

theorem modifyNode_eq (f : Node → Node) (l : List Node) (i : Nat) :
    modifyNode f l i =
      if h : i < l.length then some (l.set i (f (l.get ⟨i, h⟩))) else none := by
  induction l generalizing i with
  | nil => simp [modifyNode]
  | cons n rest ih =>
    cases i with
    | zero => simp [modifyNode]
    | succ j =>
      simp only [modifyNode, ih j, List.length_cons]
      by_cases h : j < rest.length
      · simp [h, Nat.succ_lt_succ h, List.set]
      · simp [h, fun hc => h (Nat.lt_of_succ_lt_succ hc)]

theorem modifyNode_lt (f : Node → Node) (l : List Node) (i : Nat)
    (h : i < l.length) :
    modifyNode f l i = some (l.set i (f l[i])) := by
  simp [modifyNode_eq, h]

theorem modifyNode_append_mid (f : Node → Node) (l t : List Node) (a : Node) :
    modifyNode f (l ++ a :: t) l.length = some (l ++ f a :: t) := by
  induction l with
  | nil => simp [modifyNode]
  | cons n rest ih => simp [modifyNode, ih]

theorem modifyNode_append_two_fst (f : Node → Node) (l : List Node)
    (a b : Node) : modifyNode f (l ++ [a, b]) l.length = some (l ++ [f a, b]) := by
  induction l with
  | nil => simp [modifyNode]
  | cons n rest ih => simp [modifyNode, ih]

theorem modifyNode_append_two_snd (g : Node → Node) (l : List Node)
    (a b : Node) :
    modifyNode g (l ++ [a, b]) (l.length + 1) = some (l ++ [a, g b]) := by
  induction l with
  | nil => simp [modifyNode]
  | cons n rest ih => simp [modifyNode, ih]


theorem add_component_eq (c : Circuit) (component : Component) :
    c.add_component component = some (addResult c component) := by
  simp [Circuit.add_component, Circuit.new_node, Component.component_setBase,
    modifyNode_append_two_fst, modifyNode_append_two_snd, addResult, newComp,
    Node.new, Node.add_connection, List.append_assoc]

theorem connect_invalid (c : Circuit) (a b : Nat)
    (h : c.nodes.length ≤ a ∨ c.nodes.length ≤ b) :
    c.connect a b = (c, ConnectOutcome.error invalidNodeMsg) := by
  simp [Circuit.connect, h]

theorem connect_self (c : Circuit) (a b : Nat) (ha : a < c.nodes.length)
    (hb : b < c.nodes.length) (hab : a = b) :
    c.connect a b = (c, ConnectOutcome.error selfConnectionMsg) := by
  simp [Circuit.connect, Nat.not_le_of_lt ha, Nat.not_le_of_lt hb, hab]


theorem connect_ok_eq (c : Circuit) (a b : Nat) (ha : a < c.nodes.length)
    (hb : b < c.nodes.length) (hab : a ≠ b) :
    c.connect a b =
      ({ c with nodes := connectResultNodes c.nodes a b c.wires.length ha hb },
       ConnectOutcome.ok (Wire.new c.wires.length a b)) := by
  have hb' : b < (c.nodes.set a
      (c.nodes[a].add_connection (ConnectionItem.wire c.wires.length))).length := by
    simpa using hb
  simp [Circuit.connect, Nat.not_le_of_lt ha, Nat.not_le_of_lt hb, hab,
    modifyNode_lt _ _ _ ha, modifyNode_lt _ _ _ hb', connectResultNodes,
    List.getElem_set_ne (Ne.symm hab)]

theorem length_connectResultNodes (nodes : List Node) (a b wid : Nat)
    (ha : a < nodes.length) (hb : b < nodes.length) :
    (connectResultNodes nodes a b wid ha hb).length = nodes.length := by
  simp [connectResultNodes]

theorem connect_no_panic (c : Circuit) (a b : Nat) :
    (c.connect a b).2 ≠ ConnectOutcome.panic := by
  by_cases ha : a < c.nodes.length
  · by_cases hb : b < c.nodes.length
    · by_cases hab : a = b
      · simp [connect_self c a b ha hb hab]
      · simp [connect_ok_eq c a b ha hb hab]
    · simp [connect_invalid c a b (Or.inr (Nat.le_of_not_lt hb))]
  · simp [connect_invalid c a b (Or.inl (Nat.le_of_not_lt ha))]

theorem connect_fst_components (c : Circuit) (a b : Nat) :
    ((c.connect a b).1).components = c.components := by
  by_cases ha : a < c.nodes.length
  · by_cases hb : b < c.nodes.length
    · by_cases hab : a = b
      · simp [connect_self c a b ha hb hab]
      · simp [connect_ok_eq c a b ha hb hab]
    · simp [connect_invalid c a b (Or.inr (Nat.le_of_not_lt hb))]
  · simp [connect_invalid c a b (Or.inl (Nat.le_of_not_lt ha))]

theorem connect_fst_wires (c : Circuit) (a b : Nat) :
    ((c.connect a b).1).wires = c.wires := by
  by_cases ha : a < c.nodes.length
  · by_cases hb : b < c.nodes.length
    · by_cases hab : a = b
      · simp [connect_self c a b ha hb hab]
      · simp [connect_ok_eq c a b ha hb hab]
    · simp [connect_invalid c a b (Or.inr (Nat.le_of_not_lt hb))]
  · simp [connect_invalid c a b (Or.inl (Nat.le_of_not_lt ha))]

theorem connect_fst_nodes_length (c : Circuit) (a b : Nat) :
    ((c.connect a b).1).nodes.length = c.nodes.length := by
  by_cases ha : a < c.nodes.length
  · by_cases hb : b < c.nodes.length
    · by_cases hab : a = b
      · simp [connect_self c a b ha hb hab]
      · simp [connect_ok_eq c a b ha hb hab, length_connectResultNodes]
    · simp [connect_invalid c a b (Or.inr (Nat.le_of_not_lt hb))]
  · simp [connect_invalid c a b (Or.inl (Nat.le_of_not_lt ha))]

theorem runOp_connect (c : Circuit) (a b : Nat) :
    c.runOp (Op.connect a b) = some (c.connect a b).1 := by
  show (match c.connect a b with
        | (c1, ConnectOutcome.ok _) => some c1
        | (c1, ConnectOutcome.error _) => some c1
        | (_, ConnectOutcome.panic) => none) = _
  rcases h : c.connect a b with ⟨c1, out⟩
  cases out with
  | ok w => simp
  | error msg => simp
  | panic =>
    exact absurd (by rw [h]) (connect_no_panic c a b)

theorem runOp_addComponent (c : Circuit) (component : Component) :
    c.runOp (Op.addComponent component) = some (addResult c component) := by
  show c.add_component component = _
  exact add_component_eq c component

theorem runOp_isSome (c : Circuit) (op : Op) : (c.runOp op).isSome := by
  cases op with
  | addComponent component => simp [runOp_addComponent]
  | connect a b => simp [runOp_connect]

theorem runOp_nodes_mono (c c' : Circuit) (op : Op)
    (h : c.runOp op = some c') : c.nodes.length ≤ c'.nodes.length := by
  cases op with
  | addComponent component =>
    rw [runOp_addComponent] at h
    cases h
    simp [addResult]
  | connect a b =>
    rw [runOp_connect] at h
    cases h
    rw [connect_fst_nodes_length]

theorem runOps_nodes_mono (ops : List Op) (c c' : Circuit)
    (h : runOps c ops = some c') : c.nodes.length ≤ c'.nodes.length := by
  induction ops generalizing c with
  | nil =>
    simp [runOps] at h
    cases h
    exact Nat.le_refl _
  | cons op rest ih =>
    simp only [runOps] at h
    rcases h1 : c.runOp op with _ | c1
    · rw [h1] at h
      simp at h
    · rw [h1] at h
      simp only at h
      exact Nat.le_trans (runOp_nodes_mono c c1 op h1) (ih c1 h)

/-! ### The structural invariant of reachable circuits -/

theorem addResult_nodes_length (c : Circuit) (component : Component) :
    (addResult c component).nodes.length = c.nodes.length + 2 := by
  simp [addResult]

theorem newComp_name (c : Circuit) (component : Component) :
    (newComp c component).component.name = component.component.name := by
  simp [newComp, Component.component_setBase]

theorem terminalsOf_newComp (c : Circuit) (component : Component) :
    terminalsOf (newComp c component) =
      [c.nodes.length, c.nodes.length + 1] := by
  simp [terminalsOf, newComp, Component.component_setBase]

theorem newComp_node1 (c : Circuit) (component : Component) :
    (newComp c component).component.node1 = some c.nodes.length := by
  simp [newComp, Component.component_setBase]

theorem newComp_node2 (c : Circuit) (component : Component) :
    (newComp c component).component.node2 = some (c.nodes.length + 1) := by
  simp [newComp, Component.component_setBase]


theorem compOk_mono (len len' : Nat) (e : String × Component)
    (hle : len ≤ len') (h : compOk len e) : compOk len' e :=
  ⟨h.1, h.2.1, h.2.2.1, h.2.2.2.1,
    fun t ht => Nat.lt_of_lt_of_le (h.2.2.2.2 t ht) hle⟩


theorem inv_new : Inv Circuit.new := by
  constructor <;> simp [Circuit.new]

theorem inv_addResult (c : Circuit) (component : Component) (inv : Inv c) :
    Inv (addResult c component) := by
  have hlen := addResult_nodes_length c component
  constructor
  · simpa [addResult] using inv.wires_nil
  · exact keys_nodup_mapInsert _ _ _ inv.keys_nodup
  · intro e he
    rw [hlen]
    rcases mem_mapInsert _ _ _ _ inv.keys_nodup he with he' | ⟨he', _⟩
    · subst he'
      refine ⟨newComp_name c component, ?_, ?_, ?_, ?_⟩
      · simp [newComp_node1]
      · simp [newComp_node2]
      · simp [newComp_node1, newComp_node2]
      · intro t ht
        rw [terminalsOf_newComp] at ht
        rcases List.mem_cons.mp ht with h | h
        · omega
        · simp at h
          omega
    · exact compOk_mono _ _ _ (by omega) (inv.comps_ok e he')
  · intro e he f hf hne t ht
    rcases mem_mapInsert _ _ _ _ inv.keys_nodup he with he' | ⟨he', hek⟩
    · subst he'
      rcases mem_mapInsert _ _ _ _ inv.keys_nodup hf with hf' | ⟨hf', hfk⟩
      · subst hf'
        exact absurd rfl hne
      · rw [terminalsOf_newComp] at ht
        intro htf
        have hlt := (inv.comps_ok f hf').2.2.2.2 t htf
        rcases List.mem_cons.mp ht with h | h
        · omega
        · simp at h
          omega
    · rcases mem_mapInsert _ _ _ _ inv.keys_nodup hf with hf' | ⟨hf', hfk⟩
      · subst hf'
        intro htf
        rw [terminalsOf_newComp] at htf
        have hlt := (inv.comps_ok e he').2.2.2.2 t ht
        rcases List.mem_cons.mp htf with h | h
        · omega
        · simp at h
          omega
      · exact inv.comps_disj e he' f hf' hne t ht
  · intro n hn k hk
    simp only [addResult, List.mem_append, List.mem_cons,
      List.not_mem_nil, or_false] at hn
    rcases hn with hn | hn | hn
    · exact inv.wire_entry_zero n hn k hk
    · subst hn
      simp at hk
    · subst hn
      simp at hk

theorem inv_connect_fst (c : Circuit) (a b : Nat) (inv : Inv c) :
    Inv ((c.connect a b).1) := by
  by_cases ha : a < c.nodes.length
  · by_cases hb : b < c.nodes.length
    · by_cases hab : a = b
      · rw [connect_self c a b ha hb hab]
        exact inv
      · rw [connect_ok_eq c a b ha hb hab]
        have hlen : (connectResultNodes c.nodes a b c.wires.length ha hb).length
            = c.nodes.length := length_connectResultNodes _ _ _ _ _ _
        have hw0 : c.wires.length = 0 := by rw [inv.wires_nil]; rfl
        constructor
        · exact inv.wires_nil
        · exact inv.keys_nodup
        · intro e he
          simp only [hlen]
          exact inv.comps_ok e he
        · exact inv.comps_disj
        · intro n hn k hk
          have hmem : n ∈ c.nodes ∨
              n = c.nodes[a].add_connection (ConnectionItem.wire c.wires.length) ∨
              n = c.nodes[b].add_connection (ConnectionItem.wire c.wires.length) := by
            rcases List.mem_or_eq_of_mem_set hn with hn1 | hn1
            · rcases List.mem_or_eq_of_mem_set hn1 with hn2 | hn2
              · exact Or.inl hn2
              · exact Or.inr (Or.inl hn2)
            · exact Or.inr (Or.inr hn1)
          rcases hmem with hn1 | hn1 | hn1
          · exact inv.wire_entry_zero n hn1 k hk
          · subst hn1
            simp only [Node.add_connection, List.mem_append,
              List.mem_cons, List.not_mem_nil, or_false] at hk
            rcases hk with hk | hk
            · exact inv.wire_entry_zero _ (List.getElem_mem ha) k hk
            · cases hk
              exact hw0
          · subst hn1
            simp only [Node.add_connection, List.mem_append,
              List.mem_cons, List.not_mem_nil, or_false] at hk
            rcases hk with hk | hk
            · exact inv.wire_entry_zero _ (List.getElem_mem hb) k hk
            · cases hk
              exact hw0
    · rw [connect_invalid c a b (Or.inr (Nat.le_of_not_lt hb))]
      exact inv
  · rw [connect_invalid c a b (Or.inl (Nat.le_of_not_lt ha))]
    exact inv

theorem inv_runOp (c c' : Circuit) (op : Op) (inv : Inv c)
    (h : c.runOp op = some c') : Inv c' := by
  cases op with
  | addComponent component =>
    rw [runOp_addComponent] at h
    cases h
    exact inv_addResult c component inv
  | connect a b =>
    rw [runOp_connect] at h
    cases h
    exact inv_connect_fst c a b inv

theorem inv_runOps (ops : List Op) (c c' : Circuit) (inv : Inv c)
    (h : runOps c ops = some c') : Inv c' := by
  induction ops generalizing c with
  | nil =>
    simp [runOps] at h
    cases h
    exact inv
  | cons op rest ih =>
    simp only [runOps] at h
    rcases h1 : c.runOp op with _ | c1
    · rw [h1] at h
      simp at h
    · rw [h1] at h
      simp only at h
      exact ih c1 (inv_runOp c c1 op inv h1) h

theorem inv_reachable (c : Circuit) (h : Reachable c) : Inv c := by
  rcases h with ⟨ops, hops⟩
  exact inv_runOps ops Circuit.new c inv_new hops

/-! ### Exactness of Component-kind entries and counting of Wire-kind
entries -/


theorem compCount_add_wire (n : Node) (k : Nat) (name : String) :
    compCount (n.add_connection (ConnectionItem.wire k)) name =
      compCount n name := by
  simp [compCount, Node.add_connection, List.countP_append,
    List.countP_singleton]

theorem cinv_new : CInv Circuit.new := by
  intro i h name
  simp [Circuit.new] at h

theorem addResult_getElem_left (c : Circuit) (component : Component) (i : Nat)
    (hi : i < c.nodes.length) (h : i < (addResult c component).nodes.length) :
    (addResult c component).nodes[i] = c.nodes[i] := by
  simp only [addResult]
  exact List.getElem_append_left hi

theorem addResult_getElem_mid1 (c : Circuit) (component : Component)
    (h : c.nodes.length < (addResult c component).nodes.length) :
    (addResult c component).nodes[c.nodes.length] =
      { id := c.nodes.length, voltage := none,
        connected := [ConnectionItem.component component.component.name] } := by
  simp only [addResult]
  rw [List.getElem_append_right (Nat.le_refl c.nodes.length)]
  simp

theorem addResult_getElem_mid2 (c : Circuit) (component : Component)
    (h : c.nodes.length + 1 < (addResult c component).nodes.length) :
    (addResult c component).nodes[c.nodes.length + 1] =
      { id := c.nodes.length + 1, voltage := none,
        connected := [ConnectionItem.component component.component.name] } := by
  simp only [addResult]
  rw [List.getElem_append_right (Nat.le_add_right c.nodes.length 1)]
  simp

theorem cinv_addResult (c : Circuit) (component : Component) (inv : Inv c)
    (cinv : CInv c)
    (hfresh : mapGet component.component.name c.components = none) :
    CInv (addResult c component) := by
  intro i h name
  have h2 : i < c.nodes.length + 2 := by
    rw [addResult_nodes_length] at h
    exact h
  by_cases hname : name = component.component.name
  · subst hname
    rw [show (addResult c component).components
        = mapInsert component.component.name (newComp c component)
            c.components from rfl]
    rw [mapGet_mapInsert_self]
    by_cases hi : i < c.nodes.length
    · rw [addResult_getElem_left c component i hi h]
      have hold := cinv i hi component.component.name
      rw [hfresh] at hold
      have hn1 : ¬ (newComp c component).component.node1 = some i := by
        rw [newComp_node1]
        simp
        omega
      have hn2 : ¬ (newComp c component).component.node2 = some i := by
        rw [newComp_node2]
        simp
        omega
      simp only at hold
      rw [hold]
      simp [hn1, hn2]
    · have hi2 : i = c.nodes.length ∨ i = c.nodes.length + 1 := by omega
      have hcount : compCount (addResult c component).nodes[i]
          component.component.name = 1 := by
        rcases hi2 with hi2 | hi2 <;> subst hi2
        · rw [addResult_getElem_mid1 c component h]
          simp [compCount, List.countP_singleton]
        · rw [addResult_getElem_mid2 c component h]
          simp [compCount, List.countP_singleton]
      rw [hcount]
      rcases hi2 with hi2 | hi2 <;> subst hi2 <;>
        simp [newComp_node1, newComp_node2]
  · rw [show (addResult c component).components
        = mapInsert component.component.name (newComp c component)
            c.components from rfl]
    rw [mapGet_mapInsert_ne _ _ _ _ hname]
    by_cases hi : i < c.nodes.length
    · rw [addResult_getElem_left c component i hi h]
      exact cinv i hi name
    · have hi2 : i = c.nodes.length ∨ i = c.nodes.length + 1 := by omega
      have hcount : compCount (addResult c component).nodes[i] name = 0 := by
        rcases hi2 with hi2 | hi2 <;> subst hi2
        · rw [addResult_getElem_mid1 c component h]
          simp [compCount, List.countP_singleton, Ne.symm hname]
        · rw [addResult_getElem_mid2 c component h]
          simp [compCount, List.countP_singleton, Ne.symm hname]
      rw [hcount]
      rcases hget : mapGet name c.components with _ | comp
      · rfl
      · have hmem := mapGet_mem name comp c.components hget
        have hok := inv.comps_ok _ hmem
        have hbound := hok.2.2.2.2
        have hn1 : ¬ comp.component.node1 = some i := by
          intro hc
          have hti : i ∈ terminalsOf comp := by
            simp [terminalsOf, hc]
          have := hbound i hti
          omega
        have hn2 : ¬ comp.component.node2 = some i := by
          intro hc
          have hti : i ∈ terminalsOf comp := by
            simp [terminalsOf, hc]
          have := hbound i hti
          omega
        simp [hn1, hn2]

theorem cinv_connect_fst (c : Circuit) (a b : Nat) (cinv : CInv c) :
    CInv ((c.connect a b).1) := by
  by_cases ha : a < c.nodes.length
  · by_cases hb : b < c.nodes.length
    · by_cases hab : a = b
      · rw [connect_self c a b ha hb hab]
        exact cinv
      · rw [connect_ok_eq c a b ha hb hab]
        intro i h name
        rw [length_connectResultNodes] at h
        have hrw : (connectResultNodes c.nodes a b c.wires.length ha hb)[i]
            = if i = b then
                c.nodes[b].add_connection (ConnectionItem.wire c.wires.length)
              else if i = a then
                c.nodes[a].add_connection (ConnectionItem.wire c.wires.length)
              else c.nodes[i] := by
          by_cases hib : i = b
          · subst hib
            simp [connectResultNodes]
          · by_cases hia : i = a
            · subst hia
              simp [connectResultNodes, hib,
                List.getElem_set_ne (fun hc => hib hc.symm)]
            · simp [connectResultNodes, hib, hia,
                List.getElem_set_ne (fun hc => hib hc.symm),
                List.getElem_set_ne (fun hc => hia hc.symm)]
        show compCount (connectResultNodes c.nodes a b c.wires.length ha hb)[i]
            name = _
        rw [hrw]
        by_cases hib : i = b
        · subst hib
          rw [if_pos rfl, compCount_add_wire]
          exact cinv i hb name
        · by_cases hia : i = a
          · subst hia
            rw [if_neg hib, if_pos rfl, compCount_add_wire]
            exact cinv i ha name
          · rw [if_neg hib, if_neg hia]
            exact cinv i h name
    · rw [connect_invalid c a b (Or.inr (Nat.le_of_not_lt hb))]
      exact cinv
  · rw [connect_invalid c a b (Or.inl (Nat.le_of_not_lt ha))]
    exact cinv

theorem cinv_runOps (ops : List Op) (c₀ c : Circuit) (inv : Inv c₀)
    (cinv : CInv c₀) (hnd : (opNames ops).Nodup)
    (hfresh : ∀ nm ∈ opNames ops, mapGet nm c₀.components = none)
    (h : runOps c₀ ops = some c) : CInv c := by
  induction ops generalizing c₀ with
  | nil =>
    simp [runOps] at h
    cases h
    exact cinv
  | cons op rest ih =>
    simp only [runOps] at h
    cases op with
    | addComponent component =>
      rw [runOp_addComponent] at h
      simp only at h
      simp only [opNames, List.nodup_cons] at hnd
      have hfr : mapGet component.component.name c₀.components = none :=
        hfresh _ (by simp [opNames])
      refine ih (addResult c₀ component) (inv_addResult c₀ component inv)
        (cinv_addResult c₀ component inv cinv hfr) hnd.2 ?_ h
      intro nm hnm
      have hne : nm ≠ component.component.name := by
        intro hc
        exact hnd.1 (hc ▸ hnm)
      rw [show (addResult c₀ component).components
          = mapInsert component.component.name (newComp c₀ component)
              c₀.components from rfl]
      rw [mapGet_mapInsert_ne _ _ _ _ hne]
      exact hfresh nm (by simp [opNames, hnm])
    | connect a b =>
      rw [runOp_connect] at h
      simp only at h
      simp only [opNames] at hnd hfresh
      refine ih ((c₀.connect a b).1) (inv_connect_fst c₀ a b inv)
        (cinv_connect_fst c₀ a b cinv) hnd ?_ h
      intro nm hnm
      rw [connect_fst_components]
      exact hfresh nm hnm

theorem wireCount_add_wire (n : Node) (k : Nat) :
    wireCount (n.add_connection (ConnectionItem.wire k)) = wireCount n + 1 := by
  simp [wireCount, Node.add_connection, List.countP_append,
    List.countP_singleton]

theorem nodeWireCount_addResult (c : Circuit) (component : Component)
    (i : Nat) :
    nodeWireCount (addResult c component) i = nodeWireCount c i := by
  by_cases hi : i < c.nodes.length
  · have h1 : (addResult c component).nodes[i]? = c.nodes[i]? := by
      simp only [addResult]
      exact List.getElem?_append_left hi
    rw [nodeWireCount, nodeWireCount, h1]
  · have hnone : c.nodes[i]? = none :=
      List.getElem?_eq_none (Nat.le_of_not_lt hi)
    have h1 : (addResult c component).nodes[i]? =
        [({ id := c.nodes.length, voltage := none,
            connected :=
              [ConnectionItem.component component.component.name] } : Node),
         { id := c.nodes.length + 1, voltage := none,
           connected :=
             [ConnectionItem.component component.component.name] }][i - c.nodes.length]? := by
      simp only [addResult]
      exact List.getElem?_append_right (Nat.le_of_not_lt hi)
    rw [nodeWireCount, nodeWireCount, h1, hnone]
    rcases hj : i - c.nodes.length with _ | j2
    · simp [wireCount]
    · rcases j2 with _ | j3
      · simp [wireCount]
      · simp

theorem nodeWireCount_connectResult (c : Circuit) (a b : Nat)
    (ha : a < c.nodes.length) (hb : b < c.nodes.length) (hab : a ≠ b)
    (i : Nat) :
    nodeWireCount
        ({ c with nodes := connectResultNodes c.nodes a b c.wires.length ha hb })
        i =
      nodeWireCount c i +
        ((if a = i then 1 else 0) + (if b = i then 1 else 0)) := by
  by_cases hib : i = b
  · rw [hib]
    have h1 : (connectResultNodes c.nodes a b c.wires.length ha hb)[b]? =
        some (c.nodes[b].add_connection (ConnectionItem.wire c.wires.length)) := by
      simp [connectResultNodes, hb]
    rw [nodeWireCount, nodeWireCount, h1, List.getElem?_eq_getElem hb]
    simp only [wireCount_add_wire]
    simp [hab]
  · by_cases hia : i = a
    · rw [hia]
      have hba : b ≠ a := Ne.symm hab
      have h1 : (connectResultNodes c.nodes a b c.wires.length ha hb)[a]? =
          some (c.nodes[a].add_connection (ConnectionItem.wire c.wires.length)) := by
        simp [connectResultNodes, List.getElem?_set_ne hba, ha]

      rw [nodeWireCount, nodeWireCount, h1, List.getElem?_eq_getElem ha]
      simp only [wireCount_add_wire]
      simp [Ne.symm hab]
    · have hai : a ≠ i := fun hc => hia hc.symm
      have hbi : b ≠ i := fun hc => hib hc.symm
      have h1 : (connectResultNodes c.nodes a b c.wires.length ha hb)[i]? =
          c.nodes[i]? := by
        simp [connectResultNodes, List.getElem?_set_ne hbi,
          List.getElem?_set_ne hai]
      rw [nodeWireCount, nodeWireCount, h1]
      simp [hai, hbi]

theorem nodeWireCount_runOps (ops : List Op) (c₀ c : Circuit)
    (h : runOps c₀ ops = some c) (i : Nat) :
    nodeWireCount c i = nodeWireCount c₀ i + touchCount c₀ ops i := by
  induction ops generalizing c₀ with
  | nil =>
    simp [runOps] at h
    cases h
    simp [touchCount]
  | cons op rest ih =>
    simp only [runOps] at h
    cases op with
    | addComponent component =>
      rw [runOp_addComponent] at h
      simp only at h
      have hrec := ih (addResult c₀ component) h
      rw [hrec, nodeWireCount_addResult]
      simp [touchCount, runOp_addComponent]
    | connect a b =>
      rw [runOp_connect] at h
      simp only at h
      have hrec := ih ((c₀.connect a b).1) h
      rw [hrec]
      by_cases ha : a < c₀.nodes.length
      · by_cases hb : b < c₀.nodes.length
        · by_cases hab : a = b
          · simp [touchCount, runOp_connect,
              connect_self c₀ a b ha hb hab]
          · have key := nodeWireCount_connectResult c₀ a b ha hb hab i
            simp only [touchCount, runOp_connect,
              connect_ok_eq c₀ a b ha hb hab]
            simp only [connect_ok_eq c₀ a b ha hb hab] at key
            omega
        · simp [touchCount, runOp_connect,
            connect_invalid c₀ a b (Or.inr (Nat.le_of_not_lt hb))]
      · simp [touchCount, runOp_connect,
          connect_invalid c₀ a b (Or.inl (Nat.le_of_not_lt ha))]

theorem traceWires_spec (ops : List Op) (c₀ c : Circuit) (inv : Inv c₀)
    (h : runOps c₀ ops = some c) :
    ∀ w ∈ traceWires c₀ ops,
      w.id = 0 ∧ w.node1 < c.nodes.length ∧ w.node2 < c.nodes.length := by
  induction ops generalizing c₀ with
  | nil => simp [traceWires]
  | cons op rest ih =>
    simp only [runOps] at h
    cases op with
    | addComponent component =>
      rw [runOp_addComponent] at h
      simp only at h
      intro w hw
      simp only [traceWires, runOp_addComponent, List.nil_append] at hw
      exact ih (addResult c₀ component) (inv_addResult c₀ component inv) h w hw
    | connect a b =>
      rw [runOp_connect] at h
      simp only at h
      intro w hw
      simp only [traceWires, runOp_connect] at hw
      by_cases ha : a < c₀.nodes.length
      · by_cases hb : b < c₀.nodes.length
        · by_cases hab : a = b
          · rw [connect_self c₀ a b ha hb hab] at hw h
            simp only [List.nil_append] at hw
            exact ih c₀ inv h w hw
          · rw [connect_ok_eq c₀ a b ha hb hab] at hw h
            simp only [List.singleton_append, List.mem_cons] at hw
            rcases hw with hw | hw
            · subst hw
              have hmono := runOps_nodes_mono rest _ _ h
              rw [length_connectResultNodes] at hmono
              refine ⟨?_, ?_, ?_⟩
              · show c₀.wires.length = 0
                rw [inv.wires_nil]
                rfl
              · exact Nat.lt_of_lt_of_le ha hmono
              · exact Nat.lt_of_lt_of_le hb hmono
            · refine ih _ ?_ h w hw
              have := inv_connect_fst c₀ a b inv
              rwa [connect_ok_eq c₀ a b ha hb hab] at this
        · rw [connect_invalid c₀ a b (Or.inr (Nat.le_of_not_lt hb))] at hw h
          simp only [List.nil_append] at hw
          exact ih c₀ inv h w hw
      · rw [connect_invalid c₀ a b (Or.inl (Nat.le_of_not_lt ha))] at hw h
        simp only [List.nil_append] at hw
        exact ih c₀ inv h w hw

/-! ### The claims -/

/-- Counterexample to claim C1 at a concrete input: the current source "I1"
with Normal polarity, stored by add_component with terminals node1 = 0 and
node2 = 1, has input_node() = node2 = 1 and output_node() = node1 = 0 — the
opposite of the claimed Normal mapping node1 to input and node2 to output. -/
theorem C1_counterexample :
    runOps Circuit.new
        [Op.addComponent
          (Component.currentSource
            (CurrentSource.new "I1" 2.0 Polarity.Normal))] = some circuitI1 ∧
    mapGet "I1" circuitI1.components
      = some (Component.currentSource iSourceNormal) ∧
    iSourceNormal.polarity = Polarity.Normal ∧
    iSourceNormal.component.node1 = some 0 ∧
    iSourceNormal.component.node2 = some 1 ∧
    iSourceNormal.input_node = some 1 ∧
    iSourceNormal.output_node = some 0 ∧
    ¬ (iSourceNormal.input_node = iSourceNormal.component.node1 ∧
       iSourceNormal.output_node = iSourceNormal.component.node2) := by
  refine ⟨rfl, rfl, rfl, rfl, rfl, rfl, rfl, ?_⟩
  intro hcontra
  have h1 : (some 1 : Option Nat) = some 0 := hcontra.1
  cases h1

/-- Claim C1 (amended): for every VoltageSource, Normal polarity maps node1
to the positive terminal and node2 to the negative terminal and Inverted
swaps them; for every CurrentSource the code instead maps, under Normal
polarity, node2 to the input terminal and node1 to the output terminal
(current flows from node2 to node1, per the source comment), and Inverted
swaps them.  The accessors are pure functions of the component. -/
theorem C1_source_polarity_mapping :
    ∀ (v : VoltageSource) (s : CurrentSource),
      (v.polarity = Polarity.Normal →
        v.positive_node = v.component.node1 ∧
        v.negative_node = v.component.node2) ∧
      (v.polarity = Polarity.Inverted →
        v.positive_node = v.component.node2 ∧
        v.negative_node = v.component.node1) ∧
      (s.polarity = Polarity.Normal →
        s.input_node = s.component.node2 ∧
        s.output_node = s.component.node1) ∧
      (s.polarity = Polarity.Inverted →
        s.input_node = s.component.node1 ∧
        s.output_node = s.component.node2) := by
  intro v s
  refine ⟨?_, ?_, ?_, ?_⟩ <;> intro hp <;>
    simp [VoltageSource.positive_node, VoltageSource.negative_node,
      CurrentSource.input_node, CurrentSource.output_node, hp]

/-- Counterexample to claim C2 at a concrete input: after adding two
components both named "R1" and connecting nodes 2 and 3, node 0 still
carries a Component-kind entry naming "R1" although the stored "R1" has
terminals 2 and 3 (a stale entry), and node 2 carries a Wire-kind entry
with id 0 although the wires map stores no wire at all. -/
theorem C2_counterexample :
    runOps Circuit.new dupOps = some circuitDup ∧
    (circuitDup.nodes.map Node.connected)[0]?
      = some [ConnectionItem.component "R1"] ∧
    (circuitDup.nodes.map Node.connected)[2]?
      = some [ConnectionItem.component "R1", ConnectionItem.wire 0] ∧
    mapGet "R1" circuitDup.components = some storedR1Second ∧
    storedR1Second.component.node1 = some 2 ∧
    storedR1Second.component.node2 = some 3 ∧
    circuitDup.wires = [] ∧
    ¬ (storedR1Second.component.node1 = some 0 ∨
       storedR1Second.component.node2 = some 0) := by
  refine ⟨rfl, rfl, rfl, rfl, rfl, rfl, rfl, ?_⟩
  intro hcontra
  rcases hcontra with h | h <;> cases h

/-- Claim C2 (amended): for every circuit reached by a run in which no two
add_component calls use the same component name, every node's connected list
carries exactly one Component-kind entry for each stored component whose
terminals include that node and none for any other name; its Wire-kind
entries number exactly the successful connect calls of the run having that
node as an endpoint, but they do not correspond to stored wires: the wires
map stays empty and every Wire-kind entry carries wire id 0. -/
theorem C2_connected_exactness :
    ∀ (ops : List Op) (c : Circuit), (opNames ops).Nodup →
      runOps Circuit.new ops = some c →
      (∀ i, ∀ h : i < c.nodes.length, ∀ name : String,
        compCount c.nodes[i] name =
          match mapGet name c.components with
          | some comp =>
            if comp.component.node1 = some i ∨ comp.component.node2 = some i
            then 1 else 0
          | none => 0) ∧
      (∀ i, nodeWireCount c i = touchCount Circuit.new ops i) ∧
      c.wires = [] ∧
      (∀ n ∈ c.nodes, ∀ k, ConnectionItem.wire k ∈ n.connected → k = 0) := by
  intro ops c hnd h
  have inv := inv_runOps ops Circuit.new c inv_new h
  refine ⟨?_, ?_, inv.wires_nil, inv.wire_entry_zero⟩
  · exact cinv_runOps ops Circuit.new c inv_new cinv_new hnd
      (fun nm _ => rfl) h
  · intro i
    rw [nodeWireCount_runOps ops Circuit.new c h i]
    simp [nodeWireCount, Circuit.new]

/-- Witness for C2_connected_exactness at the run that adds "R1" and
connects its two terminal nodes. -/
theorem C2_witness :
    (opNames [Op.addComponent rOne, Op.connect 0 1]).Nodup ∧
    runOps Circuit.new [Op.addComponent rOne, Op.connect 0 1]
      = some circuitR1Wired ∧
    circuitR1Wired.wires = [] :=
  ⟨by decide, rfl,
    (C2_connected_exactness [Op.addComponent rOne, Op.connect 0 1]
      circuitR1Wired (by decide) rfl).2.2.1⟩

/-- Claim C3: connect fails with the InvalidNode error kind exactly when one
of the node ids is out of range (this check comes first), otherwise fails
with the SelfConnection error kind exactly when the two ids are equal; on
every failure the circuit is returned unchanged, and connect never panics. -/
theorem C3_connect_error_cases :
    ∀ (c : Circuit) (a b : Nat),
      ((c.connect a b).2 = ConnectOutcome.error invalidNodeMsg ↔
        (c.nodes.length ≤ a ∨ c.nodes.length ≤ b)) ∧
      (a < c.nodes.length → b < c.nodes.length →
        ((c.connect a b).2 = ConnectOutcome.error selfConnectionMsg ↔ a = b)) ∧
      (∀ msg, (c.connect a b).2 = ConnectOutcome.error msg →
        (c.connect a b).1 = c) ∧
      (c.connect a b).2 ≠ ConnectOutcome.panic := by
  intro c a b
  have hmsg : invalidNodeMsg ≠ selfConnectionMsg := by decide
  by_cases ha : a < c.nodes.length
  · by_cases hb : b < c.nodes.length
    · by_cases hab : a = b
      · rw [connect_self c a b ha hb hab]
        refine ⟨?_, ?_, ?_, ?_⟩
        · simp [Ne.symm hmsg]
          omega
        · intro h1 h2
          simp [hab]
        · intro msg hmsg2
          rfl
        · simp
      · rw [connect_ok_eq c a b ha hb hab]
        refine ⟨?_, ?_, ?_, ?_⟩
        · simp
          omega
        · intro h1 h2
          simp [hab]
        · intro msg hmsg2
          cases hmsg2
        · simp
    · rw [connect_invalid c a b (Or.inr (Nat.le_of_not_lt hb))]
      refine ⟨?_, ?_, ?_, ?_⟩
      · simp
        omega
      · intro h1 h2
        exact absurd h2 hb
      · intro msg hmsg2
        rfl
      · simp
  · rw [connect_invalid c a b (Or.inl (Nat.le_of_not_lt ha))]
    refine ⟨?_, ?_, ?_, ?_⟩
    · simp
      omega
    · intro h1 h2
      exact absurd h1 ha
    · intro msg hmsg2
      rfl
    · simp

/-- Claim C4: when connect succeeds, the returned wire is
node1 = a, node2 = b with id equal to the wire count observed before the
call, and exactly one Wire-kind entry carrying that id is appended to each
of the two endpoint nodes, all other nodes and the wire and component maps
being left unchanged. -/
theorem C4_connect_success :
    ∀ (c : Circuit) (a b : Nat) (c₁ : Circuit) (w : Wire),
      c.connect a b = (c₁, ConnectOutcome.ok w) →
      w.node1 = a ∧ w.node2 = b ∧ w.id = c.wires.length ∧
      c₁.wires = c.wires ∧ c₁.components = c.components ∧
      c₁.nodes.length = c.nodes.length ∧
      (∀ i, i ≠ a → i ≠ b → c₁.nodes[i]? = c.nodes[i]?) ∧
      (∀ na, c.nodes[a]? = some na →
        c₁.nodes[a]? = some { na with connected :=
          na.connected ++ [ConnectionItem.wire c.wires.length] }) ∧
      (∀ nb, c.nodes[b]? = some nb →
        c₁.nodes[b]? = some { nb with connected :=
          nb.connected ++ [ConnectionItem.wire c.wires.length] }) := by
  intro c a b c₁ w h
  by_cases ha : a < c.nodes.length
  · by_cases hb : b < c.nodes.length
    · by_cases hab : a = b
      · rw [connect_self c a b ha hb hab] at h
        simp at h
      · rw [connect_ok_eq c a b ha hb hab] at h
        simp only [Prod.mk.injEq, ConnectOutcome.ok.injEq] at h
        obtain ⟨hc, hw⟩ := h
        subst hc
        subst hw
        have hba : b ≠ a := Ne.symm hab
        refine ⟨rfl, rfl, rfl, rfl, rfl, length_connectResultNodes _ _ _ _ _ _,
          ?_, ?_, ?_⟩
        · intro i hia hib
          have hai : a ≠ i := Ne.symm hia
          have hbi : b ≠ i := Ne.symm hib
          show (connectResultNodes c.nodes a b c.wires.length ha hb)[i]?
            = c.nodes[i]?
          simp [connectResultNodes, List.getElem?_set_ne hbi,
            List.getElem?_set_ne hai]
        · intro na hna
          have hna' : na = c.nodes[a] := by
            rw [List.getElem?_eq_getElem ha] at hna
            cases hna
            rfl
          subst hna'
          show (connectResultNodes c.nodes a b c.wires.length ha hb)[a]?
            = some _
          simp [connectResultNodes, List.getElem?_set_ne hba, ha,
            Node.add_connection]
        · intro nb hnb
          have hnb' : nb = c.nodes[b] := by
            rw [List.getElem?_eq_getElem hb] at hnb
            cases hnb
            rfl
          subst hnb'
          show (connectResultNodes c.nodes a b c.wires.length ha hb)[b]?
            = some _
          simp [connectResultNodes, hb, Node.add_connection]
    · rw [connect_invalid c a b (Or.inr (Nat.le_of_not_lt hb))] at h
      simp at h
  · rw [connect_invalid c a b (Or.inl (Nat.le_of_not_lt ha))] at h
    simp at h

/-- Witness for C4_connect_success on a two-node circuit. -/
theorem C4_witness :
    twoNodeCircuit.connect 0 1 = (twoNodeWired, ConnectOutcome.ok (Wire.new 0 0 1)) ∧
    (Wire.new 0 0 1).id = twoNodeCircuit.wires.length :=
  ⟨rfl, (C4_connect_success twoNodeCircuit 0 1 twoNodeWired
    (Wire.new 0 0 1) rfl).2.2.1⟩

/-- Claim C5: add_component on any reachable circuit appends exactly two new
nodes whose ids become the component's node1 and node2, registers one
Component-kind entry naming the component on each of the two new nodes,
stores the component under its name, and the two terminals are present,
distinct, and fresh: different from every terminal of every previously
stored component, from every endpoint of every stored wire, and from every
endpoint of every wire returned by the run's earlier connect calls. -/
theorem C5_add_component_spec :
    ∀ (ops : List Op) (c : Circuit) (component : Component) (c₁ : Circuit),
      runOps Circuit.new ops = some c →
      c.add_component component = some c₁ →
      c₁.nodes.length = c.nodes.length + 2 ∧
      mapGet component.component.name c₁.components
        = some (newComp c component) ∧
      (newComp c component).component.node1 = some c.nodes.length ∧
      (newComp c component).component.node2 = some (c.nodes.length + 1) ∧
      (newComp c component).component.node1 ≠
        (newComp c component).component.node2 ∧
      c₁.nodes[c.nodes.length]? = some
        { id := c.nodes.length, voltage := none,
          connected := [ConnectionItem.component component.component.name] } ∧
      c₁.nodes[c.nodes.length + 1]? = some
        { id := c.nodes.length + 1, voltage := none,
          connected := [ConnectionItem.component component.component.name] } ∧
      (∀ i, i < c.nodes.length → c₁.nodes[i]? = c.nodes[i]?) ∧
      (∀ e ∈ c.components, ∀ t ∈ terminalsOf e.2,
        t ≠ c.nodes.length ∧ t ≠ c.nodes.length + 1) ∧
      (∀ p ∈ c.wires,
        p.2.node1 ≠ c.nodes.length ∧ p.2.node2 ≠ c.nodes.length) ∧
      (∀ w ∈ traceWires Circuit.new ops,
        w.node1 ≠ c.nodes.length ∧ w.node1 ≠ c.nodes.length + 1 ∧
        w.node2 ≠ c.nodes.length ∧ w.node2 ≠ c.nodes.length + 1) := by
  intro ops c component c₁ hrun hadd
  have inv := inv_runOps ops Circuit.new c inv_new hrun
  rw [add_component_eq] at hadd
  have hc : c₁ = addResult c component := by
    cases hadd
    rfl
  subst hc
  refine ⟨addResult_nodes_length c component, ?_, newComp_node1 c component,
    newComp_node2 c component, ?_, ?_, ?_, ?_, ?_, ?_, ?_⟩
  · exact mapGet_mapInsert_self _ _ _
  · rw [newComp_node1, newComp_node2]
    simp
  · show (c.nodes ++ _)[c.nodes.length]? = _
    rw [List.getElem?_append_right (Nat.le_refl c.nodes.length)]
    simp
  · show (c.nodes ++ _)[c.nodes.length + 1]? = _
    rw [List.getElem?_append_right (Nat.le_add_right c.nodes.length 1)]
    simp
  · intro i hi
    show (c.nodes ++ _)[i]? = _
    exact List.getElem?_append_left hi
  · intro e he t ht
    have := (inv.comps_ok e he).2.2.2.2 t ht
    omega
  · intro p hp
    rw [inv.wires_nil] at hp
    cases hp
  · intro w hw
    have := traceWires_spec ops Circuit.new c inv_new hrun w hw
    omega

/-- Witness for C5_add_component_spec: adding "R1" to the empty circuit. -/
theorem C5_witness :
    runOps Circuit.new [] = some Circuit.new ∧
    Circuit.new.add_component rOne = some circuitR1 ∧
    circuitR1.nodes.length = Circuit.new.nodes.length + 2 :=
  ⟨rfl, rfl, (C5_add_component_spec [] Circuit.new rOne circuitR1 rfl rfl).1⟩

/-- Claim C6: adding a component whose name is already stored replaces the
prior entry (last-write-wins): the lookup afterwards returns the new
component carrying two freshly allocated terminals, the component count is
unchanged, and the replaced component's two terminal nodes remain valid
indices into nodes but are referenced by no stored component. -/
theorem C6_duplicate_name_replacement :
    ∀ (ops : List Op) (c : Circuit) (component old : Component) (c₁ : Circuit),
      runOps Circuit.new ops = some c →
      mapGet component.component.name c.components = some old →
      c.add_component component = some c₁ →
      mapGet component.component.name c₁.components
        = some (newComp c component) ∧
      (newComp c component).component.node1 = some c.nodes.length ∧
      (newComp c component).component.node2 = some (c.nodes.length + 1) ∧
      c₁.components.length = c.components.length ∧
      (∀ t ∈ terminalsOf old, t < c₁.nodes.length) ∧
      (∀ t ∈ terminalsOf old, ∀ e ∈ c₁.components, t ∉ terminalsOf e.2) := by
  intro ops c component old c₁ hrun hold hadd
  have inv := inv_runOps ops Circuit.new c inv_new hrun
  rw [add_component_eq] at hadd
  have hc : c₁ = addResult c component := by
    cases hadd
    rfl
  subst hc
  have hmem := mapGet_mem _ _ _ hold
  have hok := inv.comps_ok _ hmem
  refine ⟨mapGet_mapInsert_self _ _ _, newComp_node1 c component,
    newComp_node2 c component, ?_, ?_, ?_⟩
  · exact length_mapInsert_of_mem _ _ old _ hold
  · intro t ht
    have := hok.2.2.2.2 t ht
    rw [addResult_nodes_length]
    omega
  · intro t ht e he
    have htlt := hok.2.2.2.2 t ht
    rcases mem_mapInsert _ _ _ _ inv.keys_nodup he with he' | ⟨he', hne⟩
    · subst he'
      rw [terminalsOf_newComp]
      intro hcontra
      rcases List.mem_cons.mp hcontra with hx | hx
      · omega
      · simp at hx
        omega
    · exact inv.comps_disj _ hmem e he' (fun hx => hne hx.symm) t ht

/-- Witness for C6_duplicate_name_replacement: adding a second "R1". -/
theorem C6_witness :
    runOps Circuit.new [Op.addComponent rOne] = some circuitR1 ∧
    mapGet rTwo.component.name circuitR1.components = some storedR1First ∧
    circuitR1.add_component rTwo = some circuitR1Replaced ∧
    circuitR1Replaced.components.length = circuitR1.components.length :=
  ⟨rfl, rfl, rfl,
    (C6_duplicate_name_replacement [Op.addComponent rOne] circuitR1 rTwo
      storedR1First circuitR1Replaced rfl rfl rfl).2.2.2.1⟩

/-- Claim C7: connect never inserts the wire it creates into the wires map —
after any run from Circuit::new() the map is empty — and consequently every
wire returned by a successful connect of the run has id 0. -/
theorem C7_wires_never_stored :
    ∀ (ops : List Op) (c : Circuit), runOps Circuit.new ops = some c →
      c.wires = [] ∧ ∀ w ∈ traceWires Circuit.new ops, w.id = 0 := by
  intro ops c h
  have inv := inv_runOps ops Circuit.new c inv_new h
  exact ⟨inv.wires_nil,
    fun w hw => (traceWires_spec ops Circuit.new c inv_new h w hw).1⟩

/-- Witness for C7_wires_never_stored after one add and one connect. -/
theorem C7_witness :
    runOps Circuit.new [Op.addComponent rOne, Op.connect 0 1]
      = some circuitR1Wired ∧
    circuitR1Wired.wires = [] :=
  ⟨rfl, (C7_wires_never_stored [Op.addComponent rOne, Op.connect 0 1]
    circuitR1Wired rfl).1⟩

/-- Claim C8: in every reachable circuit, every node id stored in a wire of
the wires map or in a component's terminals is a valid index into nodes. -/
theorem C8_node_ids_valid :
    ∀ c : Circuit, Reachable c →
      (∀ p ∈ c.wires,
        p.2.node1 < c.nodes.length ∧ p.2.node2 < c.nodes.length) ∧
      (∀ e ∈ c.components, ∀ t ∈ terminalsOf e.2, t < c.nodes.length) := by
  intro c h
  have inv := inv_reachable c h
  constructor
  · intro p hp
    rw [inv.wires_nil] at hp
    cases hp
  · intro e he t ht
    exact (inv.comps_ok e he).2.2.2.2 t ht

/-- Witness for C8_node_ids_valid on a reachable two-node circuit. -/
theorem C8_witness :
    Reachable circuitR1Wired ∧
    (∀ e ∈ circuitR1Wired.components, ∀ t ∈ terminalsOf e.2,
      t < circuitR1Wired.nodes.length) :=
  ⟨⟨[Op.addComponent rOne, Op.connect 0 1], rfl⟩,
    (C8_node_ids_valid circuitR1Wired
      ⟨[Op.addComponent rOne, Op.connect 0 1], rfl⟩).2⟩

/-- Claim C9: VoltageSource's positive_node/negative_node resolve to
node1/node2 under Normal polarity and swap under Inverted; both return
absent on a freshly constructed source (terminals unassigned), and after
add_component stores the source with its terminals assigned both return
present values. -/
theorem C9_voltage_source_accessors :
    ∀ (v : VoltageSource),
      (v.polarity = Polarity.Normal →
        v.positive_node = v.component.node1 ∧
        v.negative_node = v.component.node2) ∧
      (v.polarity = Polarity.Inverted →
        v.positive_node = v.component.node2 ∧
        v.negative_node = v.component.node1) ∧
      (∀ (name : String) (voltage : Float) (polarity : Polarity),
        (VoltageSource.new name voltage polarity).positive_node = none ∧
        (VoltageSource.new name voltage polarity).negative_node = none) ∧
      (∀ c c₁ : Circuit,
        c.add_component (Component.voltageSource v) = some c₁ →
        mapGet v.component.name c₁.components
          = some (Component.voltageSource
              (v.assignTerminals c.nodes.length (c.nodes.length + 1))) ∧
        (v.assignTerminals c.nodes.length
          (c.nodes.length + 1)).positive_node.isSome = true ∧
        (v.assignTerminals c.nodes.length
          (c.nodes.length + 1)).negative_node.isSome = true) := by
  intro v
  refine ⟨?_, ?_, ?_, ?_⟩
  · intro hp
    simp [VoltageSource.positive_node, VoltageSource.negative_node, hp]
  · intro hp
    simp [VoltageSource.positive_node, VoltageSource.negative_node, hp]
  · intro name voltage polarity
    cases polarity <;>
      simp [VoltageSource.new, VoltageSource.positive_node,
        VoltageSource.negative_node]
  · intro c c₁ h
    rw [add_component_eq] at h
    have hc : c₁ = addResult c (Component.voltageSource v) := by
      cases h
      rfl
    subst hc
    refine ⟨?_, ?_, ?_⟩
    · exact mapGet_mapInsert_self _ _ _
    · cases hp : v.polarity <;>
        simp [VoltageSource.positive_node, VoltageSource.assignTerminals, hp]
    · cases hp : v.polarity <;>
        simp [VoltageSource.negative_node, VoltageSource.assignTerminals, hp]

/-- Claim C10: add_component succeeds on every circuit and every component
(the two unwrapped node lookups always find the freshly created nodes), and
the four lookup operations never fail: they return an absent value exactly
for an out-of-range node id or an unknown component name. -/
theorem C10_total_operations :
    ∀ (c : Circuit) (component : Component) (name : String) (id : Nat),
      (∃ c₁, c.add_component component = some c₁) ∧
      (c.get_node id = none ↔ c.nodes.length ≤ id) ∧
      (c.get_node_mut id = none ↔ c.nodes.length ≤ id) ∧
      (c.get_component name = none ↔ name ∉ c.components.map Prod.fst) ∧
      (c.get_component_mut name = none ↔ name ∉ c.components.map Prod.fst) := by
  intro c component name id
  refine ⟨⟨addResult c component, add_component_eq c component⟩, ?_, ?_, ?_, ?_⟩
  · simp [Circuit.get_node]
  · simp [Circuit.get_node_mut]
  · show mapGet name c.components = none ↔ _
    exact mapGet_eq_none_iff name c.components
  · show mapGet name c.components = none ↔ _
    exact mapGet_eq_none_iff name c.components

end CircuitModel
